import Mathlib

/-!
Verification development for the dutchsoils soil-profile library
(src/dutchsoils/soilprofile.py).

The reference tables (CSV files in the package data directory) are an
external, read-only collaborator; they are modelled as explicit lists of
rows passed to every operation.  Python functions are embedded as Lean
functions over these tables: fallible code returns Except, pandas row
selection becomes List.filter / List.find?, numpy vectorised arithmetic
becomes structural recursion on lists.
-/

namespace DutchSoils

/-- A row of data/BofekClusters.csv: profile index, BOFEK2020 cluster number
and dominance flag (0/1 integer column, as in the CSV). -/
structure BofekRow where
  normalsoilprofile_id : Int
  cluster : Int
  dominant : Int
  deriving DecidableEq

/-- A row of data/SoilProfiles.csv: profile index, soil unit code and
display name. -/
structure ProfileRow where
  normalsoilprofile_id : Int
  soilunit : String
  othersoilname : String
  deriving DecidableEq

/-- A row of data/BofekClustersNames.csv: cluster number and cluster name. -/
structure BofekNameRow where
  cluster : Int
  name : String
  deriving DecidableEq

/-- The reference store: the three tables used by the identity resolver. -/
structure Tables where
  bofekclusters : List BofekRow
  soilprofiles : List ProfileRow
  bofeknames : List BofekNameRow
  deriving DecidableEq

/-- The attributes of a fully initialised SoilProfile object (the fields set
by SoilProfile.__post_init__). -/
structure Profile where
  index : Int
  code : String
  name : String
  bofekcluster : Int
  bofekcluster_dominant : Bool
  bofekcluster_name : String
  deriving DecidableEq

/-- A Python value, as far as the dynamic dispatch of this library inspects
it: int, float (modelled as a rational), str, or list. -/
inductive PyVal where
  | pyInt (n : Int)
  | pyFloat (q : ℚ)
  | pyStr (s : String)
  | pyList (elems : List PyVal)

/-- The ValueError variants raised by the identity resolver (each constructor
carries the values interpolated into the corresponding Python message). -/
inductive SoilError where
  | notFoundIndex (value : Int)
  | notFoundCode (value : String)
  | notFoundCluster (value : Int)
  | notFoundValue (inputType : String) (value : PyVal)
  | ambiguousCode (code : String) (indices : List Int)
  | missingRow
  | itemNotUnique
  | emptySelection

/-- SoilProfile._is_iterable: iterable, not a string, and nonempty.  Python
strings are Iterable but explicitly excluded; ints and floats are not
Iterable; a list (or array) counts only when its length is positive. -/
def isIterable : PyVal → Bool
  | .pyList l => !l.isEmpty
  | _ => false

/-- The elements a Python for-loop would see (used only after isIterable). -/
def pyListElems : PyVal → List PyVal
  | .pyList l => l
  | v => [v]

/-- isinstance(value, (float, int)). -/
def isNumber : PyVal → Bool
  | .pyInt _ => true
  | .pyFloat _ => true
  | _ => false

/-- SoilProfile(index=i): _validate_input("index", i) checks membership of i
in the normalsoilprofile_id column of BofekClusters, then _set_bofekcluster
reads the first matching BofekClusters row, _set_code and _set_names read
the first matching SoilProfiles row, and _set_names reads the cluster name.
Missing rows after validation (pandas IndexError) are .missingRow. -/
def initFromIndex (t : Tables) (i : Int) : Except SoilError Profile :=
  if (t.bofekclusters.map (·.normalsoilprofile_id)).contains i then
    match t.bofekclusters.find? (fun r => r.normalsoilprofile_id == i) with
    | none => .error .missingRow
    | some row =>
        match t.soilprofiles.find? (fun r => r.normalsoilprofile_id == i) with
        | none => .error .missingRow
        | some prow =>
            match t.bofeknames.find? (fun r => r.cluster == row.cluster) with
            | none => .error .missingRow
            | some nrow =>
                .ok { index := i, code := prow.soilunit,
                      name := prow.othersoilname,
                      bofekcluster := row.cluster,
                      bofekcluster_dominant := row.dominant != 0,
                      bofekcluster_name := nrow.name }
  else .error (.notFoundIndex i)

/-- The normalsoilprofile_id column of the SoilProfiles rows whose soilunit
equals the given code (the body of _get_indices for one code value). -/
def indicesOfCode (t : Tables) (c : String) : List Int :=
  (t.soilprofiles.filter (fun r => r.soilunit == c)).map (·.normalsoilprofile_id)

/-- SoilProfile(code=c): _validate_input("code", c), then _init_from_code:
if exactly one index carries the code, resolve it like an index lookup
(keeping the given code); otherwise raise the ambiguity ValueError whose
message lists all matching indices. -/
def initFromCode (t : Tables) (c : String) : Except SoilError Profile :=
  if (t.soilprofiles.map (·.soilunit)).contains c then
    match indicesOfCode t c with
    | [i] =>
        match t.bofekclusters.find? (fun r => r.normalsoilprofile_id == i) with
        | none => .error .missingRow
        | some row =>
            match t.soilprofiles.find? (fun r => r.normalsoilprofile_id == i) with
            | none => .error .missingRow
            | some prow =>
                match t.bofeknames.find? (fun r => r.cluster == row.cluster) with
                | none => .error .missingRow
                | some nrow =>
                    .ok { index := i, code := c,
                          name := prow.othersoilname,
                          bofekcluster := row.cluster,
                          bofekcluster_dominant := row.dominant != 0,
                          bofekcluster_name := nrow.name }
    | l => .error (.ambiguousCode c l)
  else .error (.notFoundCode c)

/-- The normalsoilprofile_id column of the BofekClusters rows of one
cluster (the body of _get_indices for one cluster value). -/
def clusterIndices (t : Tables) (cl : Int) : List Int :=
  (t.bofekclusters.filter (fun r => r.cluster == cl)).map (·.normalsoilprofile_id)

/-- The normalsoilprofile_id values of the rows of a cluster flagged
dominant (the mask of _init_from_bofekcluster). -/
def dominantIndices (t : Tables) (cl : Int) : List Int :=
  (t.bofekclusters.filter (fun r => r.cluster == cl && r.dominant == 1)).map
    (·.normalsoilprofile_id)

/-- SoilProfile(bofekcluster=cl, bofekcluster_dominant=True):
_validate_input("bofekcluster", cl), then .item() on the masked
normalsoilprofile_id column (raising unless exactly one row matches),
then _set_code and _set_names. -/
def initFromBofekDominant (t : Tables) (cl : Int) : Except SoilError Profile :=
  if (t.bofekclusters.map (·.cluster)).contains cl then
    match dominantIndices t cl with
    | [i] =>
        match t.soilprofiles.find? (fun r => r.normalsoilprofile_id == i) with
        | none => .error .missingRow
        | some prow =>
            match t.bofeknames.find? (fun r => r.cluster == cl) with
            | none => .error .missingRow
            | some nrow =>
                .ok { index := i, code := prow.soilunit,
                      name := prow.othersoilname,
                      bofekcluster := cl,
                      bofekcluster_dominant := true,
                      bofekcluster_name := nrow.name }
    | _ => .error .itemNotUnique
  else .error (.notFoundCluster cl)

/-- A Python list comprehension [f(x) for x in l] over fallible f: elements
are produced in order and the first exception aborts the whole list. -/
def mapExceptList (f : α → Except SoilError β) : List α → Except SoilError (List β)
  | [] => .ok []
  | a :: as =>
      match f a with
      | .error e => .error e
      | .ok b =>
          match mapExceptList f as with
          | .error e => .error e
          | .ok bs => .ok (b :: bs)

/-- The result shape of _from_userinput: a bare SoilProfile for scalar
input, a list for iterable input. -/
inductive ScalarOr (α : Type) where
  | one (a : α)
  | many (l : List α)
  deriving DecidableEq

/-- from_code after _get_indices: indices[0] if exactly one, else the list,
passed to _from_userinput(·, "index").  A singleton becomes a scalar
SoilProfile; an empty list is not iterable, so it is treated as the scalar
selector [] whose validation fails; otherwise one SoilProfile per index. -/
def fromUserinputIndices (t : Tables) (indices : List Int) :
    Except SoilError (ScalarOr Profile) :=
  match indices with
  | [i] =>
      match initFromIndex t i with
      | .error e => .error e
      | .ok p => .ok (.one p)
  | [] => .error .emptySelection
  | l =>
      match mapExceptList (initFromIndex t) l with
      | .error e => .error e
      | .ok ps => .ok (.many ps)

/-- _get_indices(code=codes) for a list of codes: validate every code
against the soilunit column (first failure raises), then concatenate the
matching indices of each code in input order. -/
def getIndicesCodes (t : Tables) (codes : List String) :
    Except SoilError (List Int) :=
  match codes.find? (fun c => !(t.soilprofiles.map (·.soilunit)).contains c) with
  | some c => .error (.notFoundCode c)
  | none => .ok (codes.flatMap (indicesOfCode t))

/-- SoilProfile.from_code for a list of codes (a scalar code c follows the
same path with codes = [c], since _get_indices wraps a non-iterable input
in a one-element list). -/
def fromCode (t : Tables) (codes : List String) :
    Except SoilError (ScalarOr Profile) :=
  match getIndicesCodes t codes with
  | .error e => .error e
  | .ok indices => fromUserinputIndices t indices

/-- SoilProfile.from_index for an iterable of indices: the list branch of
_from_userinput. -/
def fromIndexList (t : Tables) (l : List Int) : Except SoilError (List Profile) :=
  mapExceptList (initFromIndex t) l

/-- SoilProfile.from_bofekcluster(clusters, dominant=True) for an iterable:
the list branch of _from_userinput with bofekcluster_dominant=True. -/
def fromBofekclusterDominantList (t : Tables) (l : List Int) :
    Except SoilError (List Profile) :=
  mapExceptList (initFromBofekDominant t) l

/-- _get_indices(cluster=clusters) for a list of clusters: validate every
cluster number (first failure raises), then concatenate the member indices
of each cluster in input order. -/
def getIndicesClusters (t : Tables) (cls : List Int) :
    Except SoilError (List Int) :=
  match cls.find? (fun cl => !(t.bofekclusters.map (·.cluster)).contains cl) with
  | some cl => .error (.notFoundCluster cl)
  | none => .ok (cls.flatMap (clusterIndices t))

/-- SoilProfile.from_bofekcluster(clusters, dominant=False): collect all
member indices and hand them to _from_userinput(·, "index") (without the
singleton collapse that from_code performs). -/
def fromBofekclusterAll (t : Tables) (cls : List Int) :
    Except SoilError (ScalarOr Profile) :=
  match getIndicesClusters t cls with
  | .error e => .error e
  | .ok indices =>
      match indices with
      | [] => .error .emptySelection
      | l =>
          match mapExceptList (initFromIndex t) l with
          | .error e => .error e
          | .ok ps => .ok (.many ps)

/-- SoilProfile(index=v) for an arbitrary Python value v used as the scalar
branch of _from_userinput: _validate_input tests membership of v in the
integer normalsoilprofile_id column, which no non-int value passes, so a
non-int scalar (such as the empty list) raises the "does not exist"
ValueError. -/
def initFromIndexPy (t : Tables) (v : PyVal) : Except SoilError Profile :=
  match v with
  | .pyInt n => initFromIndex t n
  | _ => .error (.notFoundValue "index" v)

/-- SoilProfile.from_index on an arbitrary Python value: _from_userinput
dispatches on _is_iterable (an empty list is NOT iterable, hence treated as
a scalar selector). -/
def fromIndexPy (t : Tables) (v : PyVal) : Except SoilError (ScalarOr Profile) :=
  if isIterable v then
    match mapExceptList (initFromIndexPy t) (pyListElems v) with
    | .error e => .error e
    | .ok ps => .ok (.many ps)
  else
    match initFromIndexPy t v with
    | .error e => .error e
    | .ok p => .ok (.one p)

/-- _validate_input("code", v) for an arbitrary Python value: membership in
the string soilunit column, which no non-str value passes. -/
def validateCodePy (t : Tables) (v : PyVal) : Bool :=
  match v with
  | .pyStr s => (t.soilprofiles.map (·.soilunit)).contains s
  | _ => false

/-- The indices matching one (validated) code value. -/
def indicesOfCodePy (t : Tables) (v : PyVal) : List Int :=
  match v with
  | .pyStr s => indicesOfCode t s
  | _ => []

/-- The value list _get_indices iterates over: the elements for an iterable
input, else the one-element wrapping [input] (an empty list is not
iterable, so it is wrapped whole). -/
def pyValuesOf (v : PyVal) : List PyVal :=
  if isIterable v then pyListElems v else [v]

/-- SoilProfile.from_code on an arbitrary Python value: _get_indices
validates every value (the first failure raises the "does not exist"
ValueError), concatenates the matching indices, and the result is handed
to _from_userinput(·, "index") after the singleton collapse. -/
def fromCodePy (t : Tables) (v : PyVal) : Except SoilError (ScalarOr Profile) :=
  match (pyValuesOf v).find? (fun w => !validateCodePy t w) with
  | some w => .error (.notFoundValue "code" w)
  | none => fromUserinputIndices t ((pyValuesOf v).flatMap (indicesOfCodePy t))

/-- SoilProfile(bofekcluster=v, bofekcluster_dominant=True) for an
arbitrary Python value v: _validate_input tests membership of v in the
integer cluster column, which no non-int value passes. -/
def initFromBofekDominantPy (t : Tables) (v : PyVal) : Except SoilError Profile :=
  match v with
  | .pyInt n => initFromBofekDominant t n
  | _ => .error (.notFoundValue "bofekcluster" v)

/-- SoilProfile.from_bofekcluster (dominant=True, the default) on an
arbitrary Python value: _from_userinput dispatches on _is_iterable. -/
def fromBofekclusterPy (t : Tables) (v : PyVal) : Except SoilError (ScalarOr Profile) :=
  if isIterable v then
    match mapExceptList (initFromBofekDominantPy t) (pyListElems v) with
    | .error e => .error e
    | .ok ps => .ok (.many ps)
  else
    match initFromBofekDominantPy t v with
    | .error e => .error e
    | .ok p => .ok (.one p)

/-- The ValueError variants raised by _check_input_location (each
constructor carries the values interpolated into the Python message). -/
inductive LocationError where
  | xIterableYNot
  | yIterableXNot
  | lengthMismatch (nx ny : Nat)
  | elemXNotNumber (pos : Nat)
  | elemYNotNumber (pos : Nat)
  | scalarXNotNumber (x : PyVal)
  | scalarYNotNumber (y : PyVal)

/-- SoilProfile._check_input_location: x and y must both be iterable (equal
length, all elements numeric, first offending position reported) or both be
numeric scalars. -/
def checkInputLocation (x y : PyVal) : Except LocationError Unit :=
  if isIterable x then
    if !isIterable y then .error .yIterableXNot
    else if (pyListElems x).length != (pyListElems y).length then
      .error (.lengthMismatch (pyListElems x).length (pyListElems y).length)
    else
      match (pyListElems x).enum.find? (fun p => !isNumber p.2) with
      | some p => .error (.elemXNotNumber p.1)
      | none =>
          match (pyListElems y).enum.find? (fun p => !isNumber p.2) with
          | some p => .error (.elemYNotNumber p.1)
          | none => .ok ()
  else
    if isIterable y then .error .xIterableYNot
    else if !isNumber x then .error (.scalarXNotNumber x)
    else if !isNumber y then .error (.scalarYNotNumber y)
    else .ok ()

/-- The query parameters of the WMS getFeatureInfo request built by
_request_mapid.  The bounding box string f"x,y,x+1e-5,y+1e-5" is modelled
as its four coordinates; floats are modelled as rationals. -/
structure WmsRequest where
  request : String
  service : String
  wmsVersion : String
  info_format : String
  layers : String
  query_layers : String
  crs : String
  bboxMinX : ℚ
  bboxMinY : ℚ
  bboxMaxX : ℚ
  bboxMaxY : ℚ
  imgWidth : Nat
  imgHeight : Nat
  pixelI : Nat
  pixelJ : Nat
  deriving DecidableEq

/-- The request _request_mapid sends for coordinates (xx, yy) and the
caller-supplied crs: the crs tag and the raw coordinates are forwarded to
the service unchanged. -/
def requestMapidParams (xx yy : ℚ) (crs : String) : WmsRequest :=
  { request := "getFeatureInfo", service := "WMS", wmsVersion := "1.3.0",
    info_format := "json", layers := "soilarea", query_layers := "soilarea",
    crs := crs,
    bboxMinX := xx, bboxMinY := yy,
    bboxMaxX := xx + 1 / 100000, bboxMaxY := yy + 1 / 100000,
    imgWidth := 2, imgHeight := 2, pixelI := 0, pixelJ := 2 }

/-- The per-coordinate loop of from_location over the zipped coordinate
lists.  The map service is abstracted as a function from a coordinate pair
to an optional map area id (None when the WMS returns no feature) and
_from_mapid as a fallible constructor.  The loop appends, in input order,
the resolved SoilProfile or a None placeholder, and emits one warning (the
second component) per None, carrying the offending coordinates. -/
def fromLocationLoop (svc : α → α → Option String)
    (mk : String → Except SoilError Profile) :
    List (α × α) → Except SoilError (List (Option Profile) × List (α × α))
  | [] => .ok ([], [])
  | (xx, yy) :: rest =>
      match svc xx yy with
      | some mapid =>
          match mk mapid with
          | .error e => .error e
          | .ok p =>
              match fromLocationLoop svc mk rest with
              | .error e => .error e
              | .ok (res, ws) => .ok (some p :: res, ws)
      | none =>
          match fromLocationLoop svc mk rest with
          | .error e => .error e
          | .ok (res, ws) => .ok (none :: res, (xx, yy) :: ws)

/-- The compartment heights of the discretisation grid, expanded zone by
zone: concatenate(ones(int(depth/height)) * height for each pair).  Depths
and heights are centimetres (Python ints), modelled as Nat. -/
def expandGrid (depths hcomps : List Nat) : List Nat :=
  (depths.zip hcomps).flatMap (fun dh => List.replicate (dh.1 / dh.2) dh.2)

/-- Running cumulative sums with the given start (the helper behind
numpy cumsum). -/
def cumsumFrom (acc : Nat) : List Nat → List Nat
  | [] => []
  | h :: rest => (acc + h) :: cumsumFrom (acc + h) rest

/-- numpy cumsum of a list. -/
def cumsum (l : List Nat) : List Nat := cumsumFrom 0 l

/-- sorted(set(a).union(set(b))): the ascending, deduplicated union. -/
def sortedUnion (a b : List Nat) : List Nat :=
  (a.toFinset ∪ b.toFinset).sort (· ≤ ·)

/-- numpy diff: forward differences of consecutive elements. -/
def listDiff : List Nat → List Nat
  | a :: b :: rest => (b - a) :: listDiff (b :: rest)
  | _ => []

/-- concatenate([[zb[0]], diff(zb)]): the first bottom depth followed by
the forward differences (the per-sublayer heights recovered from the
bottom depths). -/
def compsHeights : List Nat → List Nat
  | [] => []
  | z :: rest => z :: listDiff (z :: rest)

/-- numpy searchsorted(xs, v, side="left") for a sorted xs: the number of
elements strictly below v. -/
def searchsortedLeft (xs : List Nat) (v : Nat) : Nat :=
  xs.countP (fun x => decide (x < v))

/-- The 1-based soil-physical-layer index assigned to a sublayer bottom v:
searchsorted + 1, clamped to the deepest layer for sublayers below the
profile. -/
def soillayFor (soillayZb : List Nat) (v : Nat) : Nat :=
  if soillayZb.length < searchsortedLeft soillayZb v + 1 then soillayZb.length
  else searchsortedLeft soillayZb v + 1

/-- The sublayer bottom depths comps_zb of get_swapinput_profile: the
sorted deduplicated union of the expanded grid bottoms and the horizon
bottoms, clipped to the grid's total depth. -/
def compsZbOf (soillayZb depths hcomps : List Nat) : List Nat :=
  (sortedUnion soillayZb (cumsum (expandGrid depths hcomps))).filter
    (fun z => decide (z ≤ depths.sum))

/-- The ungrouped sublayer table of get_swapinput_profile: for each bottom
depth of the union grid (clipped to the grid's total depth), the pair
(ISOILLAY, HCOMP) where HCOMP doubles as the sublayer thickness HSUBLAY.
soillayZb is the list of horizon bottom depths in cm. -/
def sublayers (soillayZb depths hcomps : List Nat) : List (Nat × Nat) :=
  ((compsZbOf soillayZb depths hcomps).map (soillayFor soillayZb)).zip
    (compsHeights (compsZbOf soillayZb depths hcomps))

/-- A row of the SOILPROFILE table produced by get_swapinput_profile. -/
structure SchemaRow where
  ISUBLAY : Nat
  ISOILLAY : Nat
  HSUBLAY : Nat
  HCOMP : Nat
  NCOMP : Nat
  deriving DecidableEq

/-- The lexicographic order on (ISOILLAY, HCOMP) keys used by
pandas groupby(["ISOILLAY", "HCOMP"]), which sorts the groups by key. -/
def keyLe (a b : Nat × Nat) : Prop :=
  a.1 < b.1 ∨ (a.1 = b.1 ∧ a.2 ≤ b.2)

instance : DecidableRel keyLe := fun a b => by
  unfold keyLe; exact instDecidableOr

instance : IsTrans (Nat × Nat) keyLe where
  trans a b c hab hbc := by
    rcases hab with h1 | ⟨h1, h2⟩ <;> rcases hbc with h3 | ⟨h3, h4⟩
    · exact Or.inl (h1.trans h3)
    · exact Or.inl (h3 ▸ h1)
    · exact Or.inl (h1 ▸ h3)
    · exact Or.inr ⟨h1.trans h3, h2.trans h4⟩

instance : IsAntisymm (Nat × Nat) keyLe where
  antisymm a b hab hba := by
    rcases hab with h1 | ⟨h1, h2⟩ <;> rcases hba with h3 | ⟨h3, h4⟩ <;>
      [exact absurd h3 (Nat.lt_asymm h1); exact absurd h1 (h3 ▸ lt_irrefl _);
       exact absurd h3 (h1 ▸ lt_irrefl _);
       exact Prod.ext h1 (Nat.le_antisymm h2 h4)]

instance : IsTotal (Nat × Nat) keyLe where
  total a b := by
    rcases Nat.lt_trichotomy a.1 b.1 with h | h | h
    · exact Or.inl (Or.inl h)
    · rcases Nat.le_total a.2 b.2 with h2 | h2
      · exact Or.inl (Or.inr ⟨h, h2⟩)
      · exact Or.inr (Or.inr ⟨h.symm, h2⟩)
    · exact Or.inr (Or.inl h)

/-- The distinct group keys of pandas groupby(["ISOILLAY", "HCOMP"]),
sorted ascending by key as groupby does. -/
def groupKeys (rows : List (Nat × Nat)) : List (Nat × Nat) :=
  rows.toFinset.sort keyLe

/-- groupby(["ISOILLAY", "HCOMP"]).sum() followed by ISUBLAY = position + 1
and NCOMP = HSUBLAY / HCOMP: one schema row per distinct key in key order,
its HSUBLAY the sum of the thicknesses of ALL sublayers with that key. -/
def schemaOfRows (rows : List (Nat × Nat)) : List SchemaRow :=
  rows.toFinset.sort keyLe |>.enum.map (fun kv =>
    { ISUBLAY := kv.1 + 1, ISOILLAY := kv.2.1,
      HSUBLAY := ((rows.filter (fun r => r == kv.2)).map (·.2)).sum,
      HCOMP := kv.2.2,
      NCOMP := ((rows.filter (fun r => r == kv.2)).map (·.2)).sum / kv.2.2 })

/-- SoilProfile.get_swapinput_profile: validate that every zone depth is a
multiple of its compartment height (the error carries the offending
(depth, height) pairs, all of them), then produce the grouped schema.
soillayZb is the zbottom column in cm (already int-converted). -/
def getSwapinputProfile (soillayZb depths hcomps : List Nat) :
    Except (List (Nat × Nat)) (List SchemaRow) :=
  if ((depths.zip hcomps).filter (fun dh => dh.1 % dh.2 != 0)).isEmpty then
    .ok (schemaOfRows (sublayers soillayZb depths hcomps))
  else .error ((depths.zip hcomps).filter (fun dh => dh.1 % dh.2 != 0))

/-- Modelled from the spec: steps 7 and 8 of the Horizon Discretizer
algorithm, which group only CONSECUTIVE sublayers sharing an identical
(soil-physical-layer, compartment height) key, keeping the top-to-bottom
depth order of the sublayers.  This is the refinement target the schema of
getSwapinputProfile is compared against; the run is (key, summed
thickness). -/
def specGroupRuns : List (Nat × Nat) → List ((Nat × Nat) × Nat)
  | [] => []
  | r :: rest =>
      match specGroupRuns rest with
      | [] => [(r, r.2)]
      | (k, s) :: out =>
          if k == r then (k, s + r.2) :: out else (r, r.2) :: (k, s) :: out

/-- Modelled from the spec: the schema produced by consecutive-run grouping
(steps 7 and 8), with the 1-based sublayer index re-derived after
grouping. -/
def specConsecutiveSchema (rows : List (Nat × Nat)) : List SchemaRow :=
  (specGroupRuns rows).enum.map (fun kv =>
    { ISUBLAY := kv.1 + 1, ISOILLAY := kv.2.1.1, HSUBLAY := kv.2.2,
      HCOMP := kv.2.1.2, NCOMP := kv.2.2 / kv.2.1.2 })

/-- Modelled from the spec: the discretize algorithm with the spec's
consecutive grouping in place of the pandas groupby (steps 1 to 6 are
shared with getSwapinputProfile). -/
def specDiscretize (soillayZb depths hcomps : List Nat) :
    Except (List (Nat × Nat)) (List SchemaRow) :=
  if ((depths.zip hcomps).filter (fun dh => dh.1 % dh.2 != 0)).isEmpty then
    .ok (specConsecutiveSchema (sublayers soillayZb depths hcomps))
  else .error ((depths.zip hcomps).filter (fun dh => dh.1 % dh.2 != 0))

instance {ε α : Type} [DecidableEq ε] [DecidableEq α] : DecidableEq (Except ε α) :=
  fun a b =>
    match a, b with
    | .error e1, .error e2 => decidable_of_iff (e1 = e2) (by simp)
    | .ok v1, .ok v2 => decidable_of_iff (v1 = v2) (by simp)
    | .error _, .ok _ => isFalse (by simp)
    | .ok _, .error _ => isFalse (by simp)

/-- A small concrete reference store used to instantiate the theorems:
code "A" is shared by profiles 1 and 2 (both in cluster 10, of which 1 is
dominant), code "B" belongs to profile 3 alone (cluster 11). -/
def sampleTables : Tables :=
  { bofekclusters := [⟨1, 10, 1⟩, ⟨2, 10, 0⟩, ⟨3, 11, 1⟩],
    soilprofiles := [⟨1, "A", "n1"⟩, ⟨2, "A", "n2"⟩, ⟨3, "B", "n3"⟩],
    bofeknames := [⟨10, "c10"⟩, ⟨11, "c11"⟩] }

/-- The profile resolved by index 1 in sampleTables. -/
def sampleP1 : Profile := ⟨1, "A", "n1", 10, true, "c10"⟩

/-- The profile resolved by index 2 in sampleTables. -/
def sampleP2 : Profile := ⟨2, "A", "n2", 10, false, "c10"⟩

/-- The profile resolved by index 3 in sampleTables. -/
def sampleP3 : Profile := ⟨3, "B", "n3", 11, true, "c11"⟩

/-- A concrete stand-in for the map service used to instantiate the
geolocation theorems: the origin has no mapped feature, every other
coordinate maps to one feature id. -/
def svcSample : Int → Int → Option String :=
  fun xx _ => if xx == 0 then none else some "NL.BRO.SGM.00001"

/-- A concrete stand-in for _from_mapid used to instantiate the geolocation
theorems. -/
def mkSample : String → Except SoilError Profile := fun _ => .ok sampleP1

/-! Lemmas about the identity resolver. -/

theorem initFromIndex_index {t : Tables} {i : Int} {p : Profile}
    (h : initFromIndex t i = .ok p) : p.index = i := by
  unfold initFromIndex at h
  split at h
  · split at h
    · cases h
    · split at h
      · cases h
      · split at h
        · cases h
        · cases h; rfl
  · cases h

theorem initFromBofekDominant_index {t : Tables} {cl : Int} {p : Profile}
    (h : initFromBofekDominant t cl = .ok p) :
    dominantIndices t cl = [p.index] := by
  unfold initFromBofekDominant at h
  split at h
  · split at h
    next i hdom =>
      split at h
      · cases h
      · split at h
        · cases h
        · cases h; exact hdom
    next => cases h
  · cases h

theorem mapExceptList_ok_length {α β : Type} {f : α → Except SoilError β}
    {l : List α} {bs : List β}
    (h : mapExceptList f l = .ok bs) : bs.length = l.length := by
  induction l generalizing bs with
  | nil => simp only [mapExceptList] at h; cases h; rfl
  | cons a as ih =>
      simp only [mapExceptList] at h
      cases hfa : f a with
      | error e => rw [hfa] at h; cases h
      | ok b =>
          rw [hfa] at h
          cases hrec : mapExceptList f as with
          | error e => rw [hrec] at h; cases h
          | ok bs2 =>
              rw [hrec] at h; cases h
              simp [ih hrec]

theorem mapExceptList_ok_getElem {α β : Type} {f : α → Except SoilError β}
    {l : List α} {bs : List β}
    (h : mapExceptList f l = .ok bs) :
    ∀ (k : Nat) (a : α) (b : β), l[k]? = some a → bs[k]? = some b → f a = .ok b := by
  induction l generalizing bs with
  | nil => intro k a b ha _; simp at ha
  | cons x xs ih =>
      simp only [mapExceptList] at h
      cases hfa : f x with
      | error e => rw [hfa] at h; cases h
      | ok y =>
          rw [hfa] at h
          cases hrec : mapExceptList f xs with
          | error e => rw [hrec] at h; cases h
          | ok ys =>
              rw [hrec] at h; cases h
              intro k a b ha hb
              cases k with
              | zero =>
                  simp only [List.getElem?_cons_zero, Option.some_inj] at ha hb
                  rw [← ha, ← hb]; exact hfa
              | succ k2 =>
                  simp only [List.getElem?_cons_succ] at ha hb
                  exact ih hrec k2 a b ha hb

theorem mapExceptList_index {t : Tables} {l : List Int} {ps : List Profile}
    (h : mapExceptList (initFromIndex t) l = .ok ps) :
    ps.map (·.index) = l := by
  induction l generalizing ps with
  | nil => simp only [mapExceptList] at h; cases h; rfl
  | cons a as ih =>
      simp only [mapExceptList] at h
      cases hfa : initFromIndex t a with
      | error e => rw [hfa] at h; cases h
      | ok p =>
          rw [hfa] at h
          cases hrec : mapExceptList (initFromIndex t) as with
          | error e => rw [hrec] at h; cases h
          | ok ps2 =>
              rw [hrec] at h; cases h
              simp [ih hrec, initFromIndex_index hfa]

/-- C9: for every index i present in the Clusters table (so that resolving
by index succeeds with identity p), p.index = i, and whenever p.code maps
to exactly one index, resolving by that code reproduces the identical
identity, and resolving by p.index again also does: the round trip
index -> code -> index is stable. -/
theorem claimC9_theorem (t : Tables) (i j : Int) (p : Profile)
    (h : initFromIndex t i = .ok p)
    (huniq : indicesOfCode t p.code = [j]) :
    p.index = i ∧ j = i ∧ initFromCode t p.code = .ok p
      ∧ initFromIndex t p.index = .ok p := by
  have hidx : p.index = i := initFromIndex_index h
  have h0 := h
  unfold initFromIndex at h
  split at h
  case isFalse => cases h
  case isTrue hc =>
  split at h
  next hrow => cases h
  next row hrow =>
  split at h
  next hprow => cases h
  next prow hprow =>
  split at h
  next hnrow => cases h
  next nrow hnrow =>
  have hp : p = { index := i, code := prow.soilunit, name := prow.othersoilname,
                  bofekcluster := row.cluster,
                  bofekcluster_dominant := row.dominant != 0,
                  bofekcluster_name := nrow.name } := by
    cases h; rfl
  have hpc : p.code = prow.soilunit := by rw [hp]
  have hpid : prow.normalsoilprofile_id = i := by
    have hb := List.find?_some hprow
    simpa using hb
  have hmem : i ∈ indicesOfCode t p.code := by
    rw [hpc]
    simp only [indicesOfCode, List.mem_map, List.mem_filter]
    exact ⟨prow, ⟨List.mem_of_find?_eq_some hprow, by simp⟩, hpid⟩
  have hji : j = i := by
    rw [huniq] at hmem
    simp only [List.mem_singleton] at hmem
    exact hmem.symm
  have hcontains :
      ((t.soilprofiles.map (·.soilunit)).contains p.code) = true := by
    rw [hpc]
    simp only [List.contains, List.elem_eq_mem, decide_eq_true_eq, List.mem_map]
    exact ⟨prow, List.mem_of_find?_eq_some hprow, rfl⟩
  refine ⟨hidx, hji, ?_, hidx ▸ h0⟩
  simp only [initFromCode, hcontains, huniq, hji, hrow, hprow, hnrow, if_true]
  rw [hp]

/-- Concrete instantiation of claimC9_theorem at index 3 of sampleTables,
whose code "B" is unambiguous. -/
theorem claimC9_witness :
    sampleP3.index = 3 ∧ (3 : Int) = 3
      ∧ initFromCode sampleTables sampleP3.code = .ok sampleP3
      ∧ initFromIndex sampleTables sampleP3.index = .ok sampleP3 :=
  claimC9_theorem sampleTables 3 3 sampleP3 rfl rfl

/-- C5: when resolving cluster cl with dominantOnly=false succeeds (the
many-profiles result ps) and the dominant resolution succeeds (the single
profile p), the index set of ps is exactly the set of profile indices the
Clusters table assigns to cl (dominant and non-dominant), and the single
dominant identity's index appears among them. -/
theorem claimC5_theorem (t : Tables) (cl : Int) (p : Profile) (ps : List Profile)
    (hone : initFromBofekDominant t cl = .ok p)
    (hall : fromBofekclusterAll t [cl] = .ok (.many ps)) :
    (∀ jj : Int, jj ∈ ps.map (·.index) ↔
      ∃ r ∈ t.bofekclusters, r.cluster = cl ∧ r.normalsoilprofile_id = jj)
    ∧ p.index ∈ ps.map (·.index) := by
  have hc : ((t.bofekclusters.map (·.cluster)).contains cl) = true := by
    by_contra hcc
    unfold initFromBofekDominant at hone
    rw [if_neg hcc] at hone
    cases hone
  have hex : ∃ a ∈ t.bofekclusters, a.cluster = cl := by
    simpa [List.contains, List.elem_eq_mem, List.mem_map] using hc
  have hfind : [cl].find? (fun c2 => !(t.bofekclusters.map (·.cluster)).contains c2)
      = none := by
    simp [List.find?, hex]
  have hgi : getIndicesClusters t [cl] = .ok (clusterIndices t cl) := by
    unfold getIndicesClusters
    rw [hfind]
    simp
  have hmapidx : ps.map (·.index) = clusterIndices t cl := by
    unfold fromBofekclusterAll at hall
    split at hall
    next e heq => cases hall
    next indices heq =>
      rw [hgi] at heq
      cases heq
      split at hall
      next => cases hall
      next a as hne =>
        split at hall
        next e heq2 => cases hall
        next ps2 heq2 =>
          cases hall
          exact mapExceptList_index heq2
  have hdi : dominantIndices t cl = [p.index] := initFromBofekDominant_index hone
  constructor
  · intro jj
    rw [hmapidx]
    simp only [clusterIndices, List.mem_map, List.mem_filter, beq_iff_eq]
    constructor
    · rintro ⟨r, ⟨hr, hrc⟩, hid⟩; exact ⟨r, hr, hrc, hid⟩
    · rintro ⟨r, hr, hrc, hid⟩; exact ⟨r, ⟨hr, hrc⟩, hid⟩
  · have hmemd : p.index ∈ dominantIndices t cl := by rw [hdi]; simp
    simp only [dominantIndices, List.mem_map, List.mem_filter] at hmemd
    obtain ⟨r, ⟨hr, hrc⟩, hid⟩ := hmemd
    simp only [Bool.and_eq_true, beq_iff_eq] at hrc
    rw [hmapidx]
    simp only [clusterIndices, List.mem_map, List.mem_filter]
    exact ⟨r, ⟨hr, by simp [hrc.1]⟩, hid⟩

/-- Concrete instantiation of claimC5_theorem at cluster 10 of
sampleTables (members 1 and 2, dominant member 1). -/
theorem claimC5_witness :
    (∀ jj : Int, jj ∈ ([sampleP1, sampleP2].map (·.index)) ↔
      ∃ r ∈ sampleTables.bofekclusters, r.cluster = 10 ∧ r.normalsoilprofile_id = jj)
    ∧ sampleP1.index ∈ ([sampleP1, sampleP2].map (·.index)) :=
  claimC5_theorem sampleTables 10 sampleP1 [sampleP1, sampleP2] rfl rfl

/-- C7: when a code c maps to more than one index, the single-result path
SoilProfile(code=c) fails with the ambiguity ValueError listing ALL the
matching indices, while from_code(c) returns one resolved profile per
matching index (in table order). -/
theorem claimC7_theorem (t : Tables) (c : String) (i1 i2 : Int) (rest : List Int)
    (ps : List Profile)
    (hmulti : indicesOfCode t c = i1 :: i2 :: rest)
    (hmap : mapExceptList (initFromIndex t) (i1 :: i2 :: rest) = .ok ps) :
    initFromCode t c = .error (.ambiguousCode c (i1 :: i2 :: rest))
    ∧ fromCode t [c] = .ok (.many ps)
    ∧ ps.map (·.index) = i1 :: i2 :: rest := by
  have hc : ((t.soilprofiles.map (·.soilunit)).contains c) = true := by
    have h1 : i1 ∈ indicesOfCode t c := by rw [hmulti]; simp
    simp only [indicesOfCode, List.mem_map, List.mem_filter] at h1
    obtain ⟨r, ⟨hr, hrc⟩, _⟩ := h1
    simp only [List.contains, List.elem_eq_mem, decide_eq_true_eq, List.mem_map]
    exact ⟨r, hr, by simpa using hrc⟩
  refine ⟨?_, ?_, mapExceptList_index hmap⟩
  · simp only [initFromCode, hc, if_true, hmulti]
  · have hex : ∃ a ∈ t.soilprofiles, a.soilunit = c := by
      simpa [List.contains, List.elem_eq_mem, List.mem_map] using hc
    have hfind : [c].find? (fun c2 => !(t.soilprofiles.map (·.soilunit)).contains c2)
        = none := by
      simp [List.find?, hex]
    have hgi : getIndicesCodes t [c] = .ok (i1 :: i2 :: rest) := by
      unfold getIndicesCodes
      rw [hfind]
      simp [hmulti]
    simp only [fromCode, hgi, fromUserinputIndices, hmap]

/-- Concrete instantiation of claimC7_theorem at the ambiguous code "A" of
sampleTables (indices 1 and 2). -/
theorem claimC7_witness :
    initFromCode sampleTables "A" = .error (.ambiguousCode "A" [1, 2])
    ∧ fromCode sampleTables ["A"] = .ok (.many [sampleP1, sampleP2])
    ∧ ([sampleP1, sampleP2].map (·.index)) = [1, 2] :=
  claimC7_theorem sampleTables "A" 1 2 [] [sampleP1, sampleP2] rfl rfl

/-- C1 counterexample: a successful batch from_code over the two codes
["A", "B"] of sampleTables returns THREE results (code "A" maps to two
indices), so the output sequence is longer than the input sequence and no
positional correspondence exists: the claim that every successful batch
resolution returns a same-length sequence is false for from_code. -/
theorem claimC1_counterexample :
    fromCode sampleTables ["A", "B"] = .ok (.many [sampleP1, sampleP2, sampleP3])
    ∧ ([sampleP1, sampleP2, sampleP3].length ≠ (["A", "B"] : List String).length) :=
  ⟨rfl, by decide⟩

/-- C1 amended: a successful batch via from_index, or via from_bofekcluster
with dominant=True, returns a same-length ordered sequence with result
position k resolved from input selector position k; from_code instead
returns one result per MATCHED INDEX, the per-code matches concatenated in
input order (so its output can be longer than its input, and a total of
exactly one match collapses to a scalar). -/
theorem claimC1_theorem (t : Tables) (idxs cls : List Int) (codes : List String)
    (ps qs : List Profile) (sc : ScalarOr Profile)
    (hidx : fromIndexList t idxs = .ok ps)
    (hcl : fromBofekclusterDominantList t cls = .ok qs)
    (hcode : fromCode t codes = .ok sc) :
    (ps.length = idxs.length
      ∧ ∀ (k : Nat) (a : Int) (b : Profile), idxs[k]? = some a → ps[k]? = some b →
          initFromIndex t a = .ok b)
    ∧ (qs.length = cls.length
      ∧ ∀ (k : Nat) (a : Int) (b : Profile), cls[k]? = some a → qs[k]? = some b →
          initFromBofekDominant t a = .ok b)
    ∧ (∀ rs : List Profile, sc = .many rs →
        rs.map (·.index) = codes.flatMap (indicesOfCode t)) := by
  refine ⟨⟨mapExceptList_ok_length hidx, mapExceptList_ok_getElem hidx⟩,
          ⟨mapExceptList_ok_length hcl, mapExceptList_ok_getElem hcl⟩, ?_⟩
  intro rs hrs
  subst hrs
  unfold fromCode at hcode
  split at hcode
  next e heq => cases hcode
  next indices heq =>
    have hind : indices = codes.flatMap (indicesOfCode t) := by
      unfold getIndicesCodes at heq
      split at heq
      next => cases heq
      next => cases heq; rfl
    subst hind
    unfold fromUserinputIndices at hcode
    split at hcode
    next i heq2 =>
      split at hcode
      next e heq3 => cases hcode
      next p heq3 => simp at hcode
    next heq2 => cases hcode
    next hne hnil =>
      split at hcode
      next e heq4 => cases hcode
      next ps2 heq4 => cases hcode; exact mapExceptList_index heq4

/-- Concrete instantiation of claimC1_theorem on sampleTables: index batch
[3, 1], dominant-cluster batch [10, 11], code batch ["A", "B"]. -/
theorem claimC1_witness :
    (([sampleP3, sampleP1] : List Profile).length = ([3, 1] : List Int).length
      ∧ ∀ (k : Nat) (a : Int) (b : Profile),
          ([3, 1] : List Int)[k]? = some a → [sampleP3, sampleP1][k]? = some b →
          initFromIndex sampleTables a = .ok b)
    ∧ (([sampleP1, sampleP3] : List Profile).length = ([10, 11] : List Int).length
      ∧ ∀ (k : Nat) (a : Int) (b : Profile),
          ([10, 11] : List Int)[k]? = some a → [sampleP1, sampleP3][k]? = some b →
          initFromBofekDominant sampleTables a = .ok b)
    ∧ (∀ rs : List Profile,
        (ScalarOr.many [sampleP1, sampleP2, sampleP3] : ScalarOr Profile) = .many rs →
        rs.map (·.index) = (["A", "B"].flatMap (indicesOfCode sampleTables))) :=
  claimC1_theorem sampleTables [3, 1] [10, 11] ["A", "B"]
    [sampleP3, sampleP1] [sampleP1, sampleP3] (.many [sampleP1, sampleP2, sampleP3])
    rfl rfl rfl

/-- C10: a zero-length sequence is classified non-iterable by _is_iterable
(its length is not positive), so every batch entry point treats [] as a
scalar selector and raises a ValueError instead of returning an empty
list: from_index/from_code/from_bofekcluster fail validation of the value
[] against the respective table column, and from_location([], []) fails
the scalar numeric-type check on its X argument. -/
theorem claimC10_theorem (t : Tables) :
    isIterable (.pyList []) = false
    ∧ fromIndexPy t (.pyList []) = .error (.notFoundValue "index" (.pyList []))
    ∧ fromCodePy t (.pyList []) = .error (.notFoundValue "code" (.pyList []))
    ∧ fromBofekclusterPy t (.pyList [])
        = .error (.notFoundValue "bofekcluster" (.pyList []))
    ∧ checkInputLocation (.pyList []) (.pyList [])
        = .error (.scalarXNotNumber (.pyList [])) :=
  ⟨rfl, rfl, rfl, rfl, rfl⟩

/-- C8: a successful batch from_location over N coordinate pairs returns a
sequence of length N whose position k corresponds to input pair k: it
holds the resolved profile of pair k when the service returns a feature
there, and a None placeholder exactly when the service returns no feature;
the warnings emitted are exactly the no-feature coordinate pairs, in input
order, one each. -/
theorem claimC8_theorem {α : Type} (svc : α → α → Option String)
    (mk : String → Except SoilError Profile)
    (pts : List (α × α)) (res : List (Option Profile)) (ws : List (α × α))
    (h : fromLocationLoop svc mk pts = .ok (res, ws)) :
    res.length = pts.length
    ∧ (∀ (k : Nat) (pt : α × α), pts[k]? = some pt →
        ((res[k]? = some none ↔ svc pt.1 pt.2 = none)
         ∧ ∀ p : Profile, res[k]? = some (some p) →
             ∃ m, svc pt.1 pt.2 = some m ∧ mk m = .ok p))
    ∧ ws = pts.filter (fun pt => (svc pt.1 pt.2).isNone) := by
  induction pts generalizing res ws with
  | nil =>
      simp only [fromLocationLoop] at h
      cases h
      exact ⟨rfl, fun k pt hpt => by simp at hpt, rfl⟩
  | cons hd tl ih =>
      obtain ⟨xx, yy⟩ := hd
      simp only [fromLocationLoop] at h
      split at h
      next mapid hsvc =>
        split at h
        next e hmk => cases h
        next p hmk =>
          split at h
          next e hrec => cases h
          next res2 ws2 hrec =>
            cases h
            obtain ⟨ih1, ih2, ih3⟩ := ih _ _ hrec
            refine ⟨by simp [ih1], ?_, by simp [hsvc, ih3]⟩
            intro k pt hpt
            cases k with
            | zero =>
                simp only [List.getElem?_cons_zero, Option.some_inj] at hpt
                subst hpt
                refine ⟨by simp [hsvc], ?_⟩
                intro p2 hp2
                simp only [List.getElem?_cons_zero, Option.some_inj] at hp2
                exact ⟨mapid, hsvc, hp2 ▸ hmk⟩
            | succ k2 =>
                simp only [List.getElem?_cons_succ] at hpt ⊢
                exact ih2 k2 pt hpt
      next hsvc =>
        split at h
        next e hrec => cases h
        next res2 ws2 hrec =>
          cases h
          obtain ⟨ih1, ih2, ih3⟩ := ih _ _ hrec
          refine ⟨by simp [ih1], ?_, by simp [hsvc, ih3]⟩
          intro k pt hpt
          cases k with
          | zero =>
              simp only [List.getElem?_cons_zero, Option.some_inj] at hpt
              subst hpt
              refine ⟨by simp [hsvc], ?_⟩
              intro p2 hp2
              simp at hp2
          | succ k2 =>
              simp only [List.getElem?_cons_succ] at hpt ⊢
              exact ih2 k2 pt hpt

/-- Concrete instantiation of claimC8_theorem: two coordinate pairs, the
second of which has no mapped feature, give a length-2 result with the
None placeholder in position 2 and exactly one warning. -/
theorem claimC8_witness :
    ([some sampleP1, none] : List (Option Profile)).length
        = ([(1, 2), (0, 0)] : List (Int × Int)).length
    ∧ (∀ (k : Nat) (pt : Int × Int),
        ([(1, 2), (0, 0)] : List (Int × Int))[k]? = some pt →
        ((([some sampleP1, none] : List (Option Profile))[k]? = some none
            ↔ svcSample pt.1 pt.2 = none)
         ∧ ∀ p : Profile,
             ([some sampleP1, none] : List (Option Profile))[k]? = some (some p) →
             ∃ m, svcSample pt.1 pt.2 = some m ∧ mkSample m = .ok p))
    ∧ ([(0, 0)] : List (Int × Int))
        = ([(1, 2), (0, 0)] : List (Int × Int)).filter
            (fun pt => (svcSample pt.1 pt.2).isNone) :=
  claimC8_theorem svcSample mkSample [(1, 2), (0, 0)] [some sampleP1, none]
    [(0, 0)] rfl

/-- C3 counterexample: the WMS request built for crs "EPSG:4326" carries
the caller's coordinates completely unchanged and the caller's crs tag
itself; it is identical, bounding box included, to the request built for
the native Dutch crs "EPSG:28992".  No reprojection of the coordinates
into the service's reference system happens on the client. -/
theorem claimC3_counterexample :
    requestMapidParams 5 52 "EPSG:4326"
      = { requestMapidParams 5 52 "EPSG:28992" with crs := "EPSG:4326" }
    ∧ (requestMapidParams 5 52 "EPSG:4326").bboxMinX = 5
    ∧ (requestMapidParams 5 52 "EPSG:4326").bboxMinY = 52
    ∧ (requestMapidParams 5 52 "EPSG:4326").crs = "EPSG:4326"
    ∧ "EPSG:4326" ≠ "EPSG:28992" :=
  ⟨rfl, rfl, rfl, rfl, by decide⟩

/-- C3 amended: _request_mapid performs no local reprojection.  For every
crs the request forwards the caller-supplied crs tag verbatim and builds
the bounding box directly from the raw input coordinates; the geometric
part of the request is independent of the crs argument (the reprojection
is delegated to the WMS server). -/
theorem claimC3_theorem (xx yy : ℚ) (crs crs2 : String) :
    (requestMapidParams xx yy crs).crs = crs
    ∧ (requestMapidParams xx yy crs).bboxMinX = xx
    ∧ (requestMapidParams xx yy crs).bboxMinY = yy
    ∧ (requestMapidParams xx yy crs).bboxMaxX = xx + 1 / 100000
    ∧ (requestMapidParams xx yy crs).bboxMaxY = yy + 1 / 100000
    ∧ { requestMapidParams xx yy crs with crs := crs2 }
        = requestMapidParams xx yy crs2 :=
  ⟨rfl, rfl, rfl, rfl, rfl, rfl⟩

/-! Lemmas about the horizon discretizer. -/

theorem listDiff_length : ∀ (a : Nat) (l : List Nat),
    (listDiff (a :: l)).length = l.length
  | _, [] => rfl
  | a, b :: rest => by
      simp only [listDiff, List.length_cons]
      rw [listDiff_length b rest]

theorem compsHeights_length (l : List Nat) :
    (compsHeights l).length = l.length := by
  cases l with
  | nil => rfl
  | cons a rest =>
      simp only [compsHeights, List.length_cons]
      rw [listDiff_length a rest]

theorem compsHeights_sum : ∀ (l : List Nat), List.Sorted (· ≤ ·) l →
    (hne : l ≠ []) → (compsHeights l).sum = l.getLast hne
  | [], _, hne => absurd rfl hne
  | [a], _, _ => by simp [compsHeights, listDiff]
  | a :: b :: rest, hs, _ => by
      have hab : a ≤ b := (List.sorted_cons.mp hs).1 b (by simp)
      have htail : List.Sorted (· ≤ ·) (b :: rest) := (List.sorted_cons.mp hs).2
      have ih := compsHeights_sum (b :: rest) htail (by simp)
      simp only [compsHeights, listDiff, List.sum_cons] at ih ⊢
      rw [List.getLast_cons (by simp)]
      omega

theorem sorted_le_getLast : ∀ {l : List Nat}, List.Sorted (· ≤ ·) l →
    (hne : l ≠ []) → ∀ m ∈ l, m ≤ l.getLast hne
  | [], _, hne, _, _ => absurd rfl hne
  | [a], _, _, m, hm => by simp at hm; simp [hm]
  | a :: b :: rest, hs, _, m, hm => by
      have htail : List.Sorted (· ≤ ·) (b :: rest) := (List.sorted_cons.mp hs).2
      rw [List.getLast_cons (by simp)]
      rcases List.mem_cons.mp hm with h | h
      · subst h
        exact le_trans ((List.sorted_cons.mp hs).1 b (by simp))
          (sorted_le_getLast htail (by simp) b (by simp))
      · exact sorted_le_getLast htail (by simp) m h

theorem sorted_getLast_eq {l : List Nat} (hs : List.Sorted (· ≤ ·) l)
    (hne : l ≠ []) {m : Nat} (hmem : m ∈ l) (hub : ∀ x ∈ l, x ≤ m) :
    l.getLast hne = m :=
  Nat.le_antisymm (hub _ (List.getLast_mem hne)) (sorted_le_getLast hs hne m hmem)

theorem cumsumFrom_sum_mem : ∀ (acc : Nat) (l : List Nat), l ≠ [] →
    acc + l.sum ∈ cumsumFrom acc l
  | _, [], hne => absurd rfl hne
  | acc, [x], _ => by simp [cumsumFrom]
  | acc, x :: y :: rest2, _ => by
      have ih := cumsumFrom_sum_mem (acc + x) (y :: rest2) (by simp)
      simp only [List.sum_cons] at ih ⊢
      simp only [cumsumFrom, List.mem_cons]
      right
      have heq : acc + (x + (y + rest2.sum)) = acc + x + (y + rest2.sum) := by omega
      rw [heq]
      simpa [cumsumFrom] using ih

theorem cumsum_sum_mem (l : List Nat) (hne : l ≠ []) : l.sum ∈ cumsum l := by
  have := cumsumFrom_sum_mem 0 l hne
  simpa [cumsum] using this

theorem sum_flatMap_replicate : ∀ (l : List (Nat × Nat)),
    (∀ dh ∈ l, dh.2 ∣ dh.1) →
    (l.flatMap (fun dh => List.replicate (dh.1 / dh.2) dh.2)).sum
      = (l.map Prod.fst).sum
  | [], _ => rfl
  | dh :: rest, h => by
      have hd : dh.2 ∣ dh.1 := h dh (by simp)
      have ih := sum_flatMap_replicate rest (fun x hx => h x (by simp [hx]))
      simp only [List.flatMap_cons, List.sum_append, List.map_cons, List.sum_cons,
        List.sum_replicate, smul_eq_mul, ih]
      rw [Nat.div_mul_cancel hd]

theorem expandGrid_sum {depths hcomps : List Nat}
    (hlen : depths.length = hcomps.length)
    (hgrid : ∀ dh ∈ depths.zip hcomps, dh.2 ∣ dh.1) :
    (expandGrid depths hcomps).sum = depths.sum := by
  unfold expandGrid
  rw [sum_flatMap_replicate _ hgrid]
  rw [List.map_fst_zip _ _ (le_of_eq hlen)]

theorem sum_map_filter_split (p : Nat × Nat → Bool) :
    ∀ (l : List (Nat × Nat)),
    ((l.filter p).map Prod.snd).sum + ((l.filter (fun a => !p a)).map Prod.snd).sum
      = (l.map Prod.snd).sum
  | [] => rfl
  | a :: rest => by
      have ih := sum_map_filter_split p rest
      cases hp : p a with
      | true =>
          simp only [List.filter_cons, hp, Bool.not_true, if_true]
          simp only [List.map_cons, List.sum_cons, List.filter_cons]
          simp
          omega
      | false =>
          simp only [List.filter_cons, hp, Bool.not_false, if_true]
          simp only [List.map_cons, List.sum_cons, List.filter_cons]
          simp
          omega

theorem sum_over_keys : ∀ (keys rows : List (Nat × Nat)), keys.Nodup →
    (∀ r ∈ rows, r ∈ keys) →
    (keys.map (fun k => ((rows.filter (fun r => r == k)).map Prod.snd).sum)).sum
      = (rows.map Prod.snd).sum
  | [], rows, _, hcov => by
      have : rows = [] := List.eq_nil_iff_forall_not_mem.mpr
        (fun a ha => by simpa using hcov a ha)
      simp [this]
  | k :: ks, rows, hnd, hcov => by
      have hknotin : k ∉ ks := (List.nodup_cons.mp hnd).1
      have hndks : ks.Nodup := (List.nodup_cons.mp hnd).2
      have hsplit := sum_map_filter_split (fun r => r == k) rows
      have hcov2 : ∀ r ∈ rows.filter (fun r => !(r == k)), r ∈ ks := by
        intro r hr
        have hmem := List.mem_of_mem_filter hr
        have hprop := List.of_mem_filter hr
        have hrk : r ≠ k := by simpa using hprop
        rcases List.mem_cons.mp (hcov r hmem) with h | h
        · exact absurd h hrk
        · exact h
      have ih := sum_over_keys ks (rows.filter (fun r => !(r == k))) hndks hcov2
      have hcongr : ∀ k2 ∈ ks,
          (rows.filter (fun r => !(r == k))).filter (fun r => r == k2)
            = rows.filter (fun r => r == k2) := by
        intro k2 hk2
        have hne2 : k2 ≠ k := fun h => hknotin (h ▸ hk2)
        rw [List.filter_filter]
        apply List.filter_congr
        intro a _
        by_cases ha : a = k2
        · subst ha
          simp [hne2]
        · simp [ha]
      simp only [List.map_cons, List.sum_cons]
      rw [← hsplit, ← ih]
      congr 1
      congr 1
      apply List.map_congr_left
      intro k2 hk2
      rw [hcongr k2 hk2]

theorem map_enumFrom_snd {α β : Type} (f : α → β) :
    ∀ (n : Nat) (l : List α),
    (List.enumFrom n l).map (fun kv => f kv.2) = l.map f
  | _, [] => rfl
  | n, a :: as => by
      simp only [List.enumFrom, List.map_cons]
      rw [map_enumFrom_snd f (n + 1) as]

theorem map_enumFrom_fst {α : Type} :
    ∀ (n : Nat) (l : List α),
    (List.enumFrom n l).map (fun kv => kv.1 + 1) = List.range' (n + 1) l.length
  | _, [] => rfl
  | n, a :: as => by
      simp only [List.enumFrom, List.map_cons, List.length_cons, List.range']
      rw [map_enumFrom_fst (n + 1) as]

theorem schemaOfRows_hsublay_sum (rows : List (Nat × Nat)) :
    ((schemaOfRows rows).map (·.HSUBLAY)).sum = (rows.map Prod.snd).sum := by
  have h1 : (schemaOfRows rows).map (·.HSUBLAY)
      = (rows.toFinset.sort keyLe).map
          (fun k => ((rows.filter (fun r => r == k)).map Prod.snd).sum) := by
    unfold schemaOfRows
    rw [List.map_map]
    exact map_enumFrom_snd
      (fun k => ((rows.filter (fun r => r == k)).map Prod.snd).sum) 0 _
  rw [h1]
  exact sum_over_keys _ rows (Finset.sort_nodup _ _)
    (fun r hr => (Finset.mem_sort _).mpr (List.mem_toFinset.mpr hr))

theorem grid_check_ok {depths hcomps : List Nat}
    (hgrid : ∀ dh ∈ depths.zip hcomps, 0 < dh.2 ∧ dh.2 ∣ dh.1) :
    ((depths.zip hcomps).filter (fun dh => dh.1 % dh.2 != 0)).isEmpty = true := by
  rw [List.isEmpty_iff, List.filter_eq_nil_iff]
  intro dh hdh
  have hg := hgrid dh hdh
  have hz : dh.1 % dh.2 = 0 := Nat.mod_eq_zero_of_dvd hg.2
  simp [hz]

theorem compsZb_sorted (soillayZb depths hcomps : List Nat) :
    List.Sorted (· ≤ ·) (compsZbOf soillayZb depths hcomps) := by
  unfold compsZbOf
  exact (Finset.sort_sorted _ _).filter _

theorem compsZb_sorted_lt (soillayZb depths hcomps : List Nat) :
    List.Sorted (· < ·) (compsZbOf soillayZb depths hcomps) := by
  unfold compsZbOf sortedUnion
  exact (Finset.sort_sorted_lt _).filter _

theorem compsZb_le {soillayZb depths hcomps : List Nat} {x : Nat}
    (hx : x ∈ compsZbOf soillayZb depths hcomps) : x ≤ depths.sum := by
  unfold compsZbOf at hx
  have h2 := List.of_mem_filter hx
  simpa using h2

theorem total_mem_compsZb (soillayZb : List Nat) {depths hcomps : List Nat}
    (hne : depths ≠ []) (hlen : depths.length = hcomps.length)
    (hgrid : ∀ dh ∈ depths.zip hcomps, 0 < dh.2 ∧ dh.2 ∣ dh.1 ∧ 0 < dh.1) :
    depths.sum ∈ compsZbOf soillayZb depths hcomps := by
  have hsum : (expandGrid depths hcomps).sum = depths.sum :=
    expandGrid_sum hlen (fun dh hdh => (hgrid dh hdh).2.1)
  have hpos : 0 < depths.sum := by
    cases hd : depths with
    | nil => exact absurd hd hne
    | cons d0 dtl =>
        cases hh : hcomps with
        | nil => rw [hd, hh] at hlen; simp at hlen
        | cons h0 htl =>
            have hz : (d0, h0) ∈ depths.zip hcomps := by
              rw [hd, hh]; simp [List.zip_cons_cons]
            have hd0 := (hgrid _ hz).2.2
            simp only at hd0
            simp only [List.sum_cons]
            omega
  have hexp_ne : expandGrid depths hcomps ≠ [] := by
    intro hcon
    rw [hcon] at hsum
    simp at hsum
    omega
  unfold compsZbOf
  rw [List.mem_filter]
  refine ⟨?_, by simp⟩
  unfold sortedUnion
  rw [Finset.mem_sort, Finset.mem_union]
  right
  rw [List.mem_toFinset, ← hsum]
  exact cumsum_sum_mem _ hexp_ne

/-- C4: for every profile and valid grid for which the schema is produced,
the sum of the schema's sublayer thicknesses HSUBLAY never exceeds the sum
of the grid's depths, and equals it exactly whenever the deepest horizon
bottom is at least the grid's total depth.  (In fact the sum always equals
the grid's total depth: the expanded grid's own deepest bottom equals the
total, survives the clipping, and the thicknesses telescope to it.) -/
theorem claimC4_theorem (soillayZb depths hcomps : List Nat)
    (schema : List SchemaRow)
    (hne : depths ≠ []) (hlen : depths.length = hcomps.length)
    (hgrid : ∀ dh ∈ depths.zip hcomps, 0 < dh.2 ∧ dh.2 ∣ dh.1 ∧ 0 < dh.1)
    (hok : getSwapinputProfile soillayZb depths hcomps = .ok schema) :
    ((schema.map (·.HSUBLAY)).sum ≤ depths.sum)
    ∧ ((∃ z ∈ soillayZb, depths.sum ≤ z) →
        (schema.map (·.HSUBLAY)).sum = depths.sum) := by
  have hschema : schema = schemaOfRows (sublayers soillayZb depths hcomps) := by
    simp only [getSwapinputProfile] at hok
    rw [grid_check_ok (fun dh hdh => ⟨(hgrid dh hdh).1, (hgrid dh hdh).2.1⟩)] at hok
    simp only [if_true] at hok
    cases hok
    rfl
  have h1 : (schema.map (·.HSUBLAY)).sum
      = ((sublayers soillayZb depths hcomps).map Prod.snd).sum := by
    rw [hschema]
    exact schemaOfRows_hsublay_sum _
  have h2 : (sublayers soillayZb depths hcomps).map Prod.snd
      = compsHeights (compsZbOf soillayZb depths hcomps) := by
    unfold sublayers
    apply List.map_snd_zip
    rw [List.length_map, compsHeights_length]
  have hmem := total_mem_compsZb soillayZb hne hlen hgrid
  have hne2 : compsZbOf soillayZb depths hcomps ≠ [] := List.ne_nil_of_mem hmem
  have h3 : (compsHeights (compsZbOf soillayZb depths hcomps)).sum
      = (compsZbOf soillayZb depths hcomps).getLast hne2 :=
    compsHeights_sum _ (compsZb_sorted soillayZb depths hcomps) hne2
  have h4 : (compsZbOf soillayZb depths hcomps).getLast hne2 = depths.sum :=
    sorted_getLast_eq (compsZb_sorted soillayZb depths hcomps) hne2 hmem
      (fun x hx => compsZb_le hx)
  have hsum : (schema.map (·.HSUBLAY)).sum = depths.sum := by
    rw [h1, h2, h3, h4]
  exact ⟨le_of_eq hsum, fun _ => hsum⟩

theorem sortedUnion_eq (a b target : List Nat)
    (h1 : (a ++ b).toFinset = target.toFinset)
    (h3 : List.Sorted (· < ·) target) :
    sortedUnion a b = target := by
  unfold sortedUnion
  rw [← List.toFinset_append, h1]
  exact (List.toFinset_sort (· ≤ ·) h3.nodup).mpr (h3.imp le_of_lt)

theorem sort_keys_eq (rows target : List (Nat × Nat))
    (h1 : rows.toFinset = target.toFinset)
    (h2 : target.Nodup) (h3 : target.Sorted keyLe) :
    rows.toFinset.sort keyLe = target := by
  rw [h1]
  exact (List.toFinset_sort keyLe h2).mpr h3

theorem compsZb_eval_c4 : compsZbOf [20] [4, 6] [2, 3] = [2, 4, 7, 10] := by
  unfold compsZbOf
  rw [show cumsum (expandGrid [4, 6] [2, 3]) = [2, 4, 7, 10] from rfl]
  rw [sortedUnion_eq _ _ [2, 4, 7, 10, 20] (by decide) (by decide)]
  decide

theorem sublayers_eval_c4 :
    sublayers [20] [4, 6] [2, 3] = [(1, 2), (1, 2), (1, 3), (1, 3)] := by
  unfold sublayers
  rw [compsZb_eval_c4]
  decide

theorem schema_eval_c4 :
    getSwapinputProfile [20] [4, 6] [2, 3]
      = .ok [⟨1, 1, 4, 2, 2⟩, ⟨2, 1, 6, 3, 2⟩] := by
  unfold getSwapinputProfile
  rw [if_pos (by decide)]
  unfold schemaOfRows
  rw [sublayers_eval_c4]
  rw [sort_keys_eq _ [(1, 2), (1, 3)] (by decide) (by decide) (by decide)]
  decide

/-- Concrete instantiation of claimC4_theorem: grid depths [4, 6] with
compartment heights [2, 3] against a single horizon with bottom 20 cm
(deeper than the grid total 10, so the equality case applies). -/
theorem claimC4_witness :
    (([⟨1, 1, 4, 2, 2⟩, ⟨2, 1, 6, 3, 2⟩] :
        List SchemaRow).map (·.HSUBLAY)).sum ≤ ([4, 6] : List Nat).sum
    ∧ ((∃ z ∈ ([20] : List Nat), ([4, 6] : List Nat).sum ≤ z) →
        (([⟨1, 1, 4, 2, 2⟩, ⟨2, 1, 6, 3, 2⟩] :
            List SchemaRow).map (·.HSUBLAY)).sum = ([4, 6] : List Nat).sum) :=
  claimC4_theorem [20] [4, 6] [2, 3] [⟨1, 1, 4, 2, 2⟩, ⟨2, 1, 6, 3, 2⟩]
    (by decide) (by decide) (by decide) schema_eval_c4

/-- C6: for every grid (with positive compartment heights, where Python's
modulo is defined) containing at least one pair whose depth is not a
multiple of its height, get_swapinput_profile raises the ValidationError
whose message carries EVERY non-conforming (depth, height) pair, all at
once, and produces no schema: the error value is exactly the list of
violating pairs of the grid in order. -/
theorem claimC6_theorem (soillayZb depths hcomps : List Nat)
    (_hpos : ∀ dh ∈ depths.zip hcomps, 0 < dh.2)
    (hviol : ∃ dh ∈ depths.zip hcomps, dh.1 % dh.2 ≠ 0) :
    getSwapinputProfile soillayZb depths hcomps
      = .error ((depths.zip hcomps).filter (fun dh => dh.1 % dh.2 != 0))
    ∧ (∀ dh ∈ depths.zip hcomps, dh.1 % dh.2 ≠ 0 →
        dh ∈ (depths.zip hcomps).filter (fun dh2 => dh2.1 % dh2.2 != 0))
    ∧ (∀ dh ∈ (depths.zip hcomps).filter (fun dh2 => dh2.1 % dh2.2 != 0),
        dh ∈ depths.zip hcomps ∧ dh.1 % dh.2 ≠ 0) := by
  obtain ⟨dh0, hdh0, hv0⟩ := hviol
  have hne : ((depths.zip hcomps).filter (fun dh => dh.1 % dh.2 != 0)) ≠ [] := by
    intro hcon
    have hmem : dh0 ∈ (depths.zip hcomps).filter (fun dh => dh.1 % dh.2 != 0) :=
      List.mem_filter.mpr ⟨hdh0, by simpa using hv0⟩
    rw [hcon] at hmem
    simp at hmem
  refine ⟨?_, ?_, ?_⟩
  · unfold getSwapinputProfile
    rw [if_neg (fun hcon => hne (List.isEmpty_iff.mp hcon))]
  · intro dh hdh hv
    exact List.mem_filter.mpr ⟨hdh, by simpa using hv⟩
  · intro dh hdh
    exact ⟨(List.mem_filter.mp hdh).1, by simpa using (List.mem_filter.mp hdh).2⟩

/-- Concrete instantiation of claimC6_theorem: the single grid entry
(10, 3) fails with the ValidationError naming exactly the pair (10, 3). -/
theorem claimC6_witness :
    getSwapinputProfile [100] [10] [3] = .error [(10, 3)] :=
  ((claimC6_theorem [100] [10] [3] (by decide) (by decide)).1).trans (by decide)

theorem cumsumFrom_pos : ∀ (acc : Nat) (l : List Nat), (∀ x ∈ l, 0 < x) →
    ∀ y ∈ cumsumFrom acc l, acc < y
  | _, [], _, y, hy => by simp [cumsumFrom] at hy
  | acc, x :: rest, hl, y, hy => by
      simp only [cumsumFrom, List.mem_cons] at hy
      have hx := hl x (by simp)
      rcases hy with h | h
      · omega
      · have := cumsumFrom_pos (acc + x) rest (fun z hz => hl z (by simp [hz])) y h
        omega

theorem expandGrid_pos {depths hcomps : List Nat}
    (hgrid : ∀ dh ∈ depths.zip hcomps, 0 < dh.2) :
    ∀ x ∈ expandGrid depths hcomps, 0 < x := by
  intro x hx
  unfold expandGrid at hx
  rw [List.mem_flatMap] at hx
  obtain ⟨dh, hdh, hxr⟩ := hx
  have hxe := List.eq_of_mem_replicate hxr
  subst hxe
  exact hgrid dh hdh

theorem compsZb_pos {soillayZb depths hcomps : List Nat}
    (hzb : ∀ z ∈ soillayZb, 0 < z)
    (hgrid : ∀ dh ∈ depths.zip hcomps, 0 < dh.2) :
    ∀ x ∈ compsZbOf soillayZb depths hcomps, 0 < x := by
  intro x hx
  unfold compsZbOf at hx
  have hx2 := List.mem_of_mem_filter hx
  unfold sortedUnion at hx2
  rw [Finset.mem_sort, Finset.mem_union, List.mem_toFinset, List.mem_toFinset] at hx2
  rcases hx2 with h | h
  · exact hzb x h
  · have := cumsumFrom_pos 0 _ (expandGrid_pos hgrid) x h
    omega

theorem listDiff_pos : ∀ {l : List Nat}, List.Sorted (· < ·) l →
    ∀ x ∈ listDiff l, 0 < x
  | [], _, x, hx => by simp [listDiff] at hx
  | [_], _, x, hx => by simp [listDiff] at hx
  | a :: b :: rest, hs, x, hx => by
      simp only [listDiff, List.mem_cons] at hx
      rcases hx with h | h
      · have hab : a < b := (List.sorted_cons.mp hs).1 b (by simp)
        omega
      · exact listDiff_pos (List.sorted_cons.mp hs).2 x h

theorem compsHeights_pos {l : List Nat} (hs : List.Sorted (· < ·) l)
    (hl : ∀ x ∈ l, 0 < x) : ∀ x ∈ compsHeights l, 0 < x := by
  intro x hx
  cases l with
  | nil => simp [compsHeights] at hx
  | cons a rest =>
      simp only [compsHeights, List.mem_cons] at hx
      rcases hx with h | h
      · rw [h]
        exact hl a (by simp)
      · exact listDiff_pos hs x h

theorem sublayers_snd_pos {soillayZb depths hcomps : List Nat}
    (hzb : ∀ z ∈ soillayZb, 0 < z)
    (hgrid : ∀ dh ∈ depths.zip hcomps, 0 < dh.2) :
    ∀ k ∈ sublayers soillayZb depths hcomps, 0 < k.2 := by
  intro k hk
  have hsnd : (sublayers soillayZb depths hcomps).map Prod.snd
      = compsHeights (compsZbOf soillayZb depths hcomps) := by
    unfold sublayers
    apply List.map_snd_zip
    rw [List.length_map, compsHeights_length]
  have hmem : k.2 ∈ compsHeights (compsZbOf soillayZb depths hcomps) := by
    rw [← hsnd]
    exact List.mem_map_of_mem Prod.snd hk
  exact compsHeights_pos (compsZb_sorted_lt soillayZb depths hcomps)
    (compsZb_pos hzb hgrid) k.2 hmem

theorem filter_key_sum (rows : List (Nat × Nat)) (k : Nat × Nat) :
    ((rows.filter (fun r => r == k)).map Prod.snd).sum = rows.count k * k.2 := by
  rw [List.filter_beq]
  rw [List.map_replicate]
  rw [List.sum_replicate]
  simp [smul_eq_mul]

theorem schemaOfRows_isublay (rows : List (Nat × Nat)) :
    (schemaOfRows rows).map (·.ISUBLAY)
      = List.range' 1 (rows.toFinset.sort keyLe).length := by
  unfold schemaOfRows
  rw [List.map_map]
  exact map_enumFrom_fst 0 _

theorem schemaOfRows_keys (rows : List (Nat × Nat)) :
    (schemaOfRows rows).map (fun r => (r.ISOILLAY, r.HCOMP))
      = rows.toFinset.sort keyLe := by
  unfold schemaOfRows
  rw [List.map_map]
  exact (map_enumFrom_snd (fun k : Nat × Nat => k) 0 _).trans (List.map_id _)

theorem mem_enumFrom_snd {α : Type} : ∀ {n : Nat} {l : List α} {kv : Nat × α},
    kv ∈ List.enumFrom n l → kv.2 ∈ l
  | _, [], kv, h => by simp [List.enumFrom] at h
  | n, a :: as, kv, h => by
      simp only [List.enumFrom, List.mem_cons] at h
      rcases h with h | h
      · subst h; simp
      · simp [mem_enumFrom_snd h]

theorem schemaOfRows_length (rows : List (Nat × Nat)) :
    (schemaOfRows rows).length = (rows.toFinset.sort keyLe).length := by
  unfold schemaOfRows
  simp [List.length_map, List.enumFrom_length]

/-- C2 amended: in the schema, ALL sublayers (consecutive or not) sharing
an identical (soil-physical-layer, compartment height) key are merged into
one row whose thickness is the key's height times the number of matching
sublayers (so compartment count times height equals the thickness
exactly); the rows are ordered lexicographically by key, as pandas groupby
sorts them (NOT necessarily in the top-to-bottom depth order of the
sublayers), with one row per distinct key; and ISUBLAY is the 1-based
sequential position after grouping. -/
theorem claimC2_theorem (soillayZb depths hcomps : List Nat)
    (schema : List SchemaRow)
    (hzb : ∀ z ∈ soillayZb, 0 < z)
    (hgrid : ∀ dh ∈ depths.zip hcomps, 0 < dh.2 ∧ dh.2 ∣ dh.1)
    (hok : getSwapinputProfile soillayZb depths hcomps = .ok schema) :
    (schema.map (·.ISUBLAY) = List.range' 1 schema.length)
    ∧ List.Sorted keyLe (schema.map (fun r => (r.ISOILLAY, r.HCOMP)))
    ∧ (schema.map (fun r => (r.ISOILLAY, r.HCOMP))).Nodup
    ∧ (∀ k : Nat × Nat, k ∈ schema.map (fun r => (r.ISOILLAY, r.HCOMP)) ↔
        k ∈ sublayers soillayZb depths hcomps)
    ∧ (∀ row ∈ schema,
        row.HSUBLAY
          = ((sublayers soillayZb depths hcomps).count (row.ISOILLAY, row.HCOMP))
              * row.HCOMP
        ∧ row.NCOMP * row.HCOMP = row.HSUBLAY) := by
  have hschema : schema = schemaOfRows (sublayers soillayZb depths hcomps) := by
    simp only [getSwapinputProfile] at hok
    rw [grid_check_ok hgrid] at hok
    simp only [if_true] at hok
    cases hok
    rfl
  subst hschema
  refine ⟨?_, ?_, ?_, ?_, ?_⟩
  · rw [schemaOfRows_isublay, schemaOfRows_length]
  · rw [schemaOfRows_keys]
    exact Finset.sort_sorted keyLe _
  · rw [schemaOfRows_keys]
    exact Finset.sort_nodup keyLe _
  · intro k
    rw [schemaOfRows_keys, Finset.mem_sort, List.mem_toFinset]
  · intro row hrow
    unfold schemaOfRows at hrow
    rw [List.mem_map] at hrow
    obtain ⟨kv, hkv, hmk⟩ := hrow
    have hkmem : kv.2 ∈ Finset.sort keyLe (sublayers soillayZb depths hcomps).toFinset :=
      mem_enumFrom_snd hkv
    have hkrows : kv.2 ∈ sublayers soillayZb depths hcomps := by
      rw [Finset.mem_sort, List.mem_toFinset] at hkmem
      exact hkmem
    have hpos : 0 < kv.2.2 :=
      sublayers_snd_pos hzb (fun dh hdh => (hgrid dh hdh).1) kv.2 hkrows
    have hfk := filter_key_sum (sublayers soillayZb depths hcomps) kv.2
    subst hmk
    simp only
    constructor
    · rw [hfk]
    · rw [hfk, Nat.mul_div_cancel _ hpos]

theorem compsZb_eval_c2 : compsZbOf [100] [3, 4] [3, 2] = [3, 5, 7] := by
  unfold compsZbOf
  rw [show cumsum (expandGrid [3, 4] [3, 2]) = [3, 5, 7] from rfl]
  rw [sortedUnion_eq _ _ [3, 5, 7, 100] (by decide) (by decide)]
  decide

theorem sublayers_eval_c2 :
    sublayers [100] [3, 4] [3, 2] = [(1, 3), (1, 2), (1, 2)] := by
  unfold sublayers
  rw [compsZb_eval_c2]
  decide

theorem schema_eval_c2 :
    getSwapinputProfile [100] [3, 4] [3, 2]
      = .ok [⟨1, 1, 4, 2, 2⟩, ⟨2, 1, 3, 3, 1⟩] := by
  unfold getSwapinputProfile
  rw [if_pos (by decide)]
  unfold schemaOfRows
  rw [sublayers_eval_c2]
  rw [sort_keys_eq _ [(1, 2), (1, 3)] (by decide) (by decide) (by decide)]
  decide

theorem spec_eval_c2 :
    specDiscretize [100] [3, 4] [3, 2]
      = .ok [⟨1, 1, 3, 3, 1⟩, ⟨2, 1, 4, 2, 2⟩] := by
  unfold specDiscretize
  rw [if_pos (by decide)]
  unfold specConsecutiveSchema
  rw [sublayers_eval_c2]
  decide

/-- C2 counterexample: against a single 100 cm horizon, the grid
[(3, 3), (4, 2)] yields sublayers of heights 3, 2, 2 within soil layer 1.
The spec's consecutive grouping keeps the depth order (the 3 cm sublayer
first, then the merged 2 cm sublayers), but the code's pandas groupby
sorts rows by (ISOILLAY, HCOMP) key, listing the merged 2 cm row FIRST:
the produced schema differs from the consecutive-grouping schema and does
not keep the top-to-bottom depth order of the sublayers. -/
theorem claimC2_counterexample :
    getSwapinputProfile [100] [3, 4] [3, 2]
      = .ok [⟨1, 1, 4, 2, 2⟩, ⟨2, 1, 3, 3, 1⟩]
    ∧ specDiscretize [100] [3, 4] [3, 2]
      = .ok [⟨1, 1, 3, 3, 1⟩, ⟨2, 1, 4, 2, 2⟩]
    ∧ getSwapinputProfile [100] [3, 4] [3, 2]
        ≠ specDiscretize [100] [3, 4] [3, 2] := by
  refine ⟨schema_eval_c2, spec_eval_c2, ?_⟩
  rw [schema_eval_c2, spec_eval_c2]
  simp only [ne_eq, Except.ok.injEq]
  decide

/-- Concrete instantiation of claimC2_theorem on the counterexample input:
the key-sorted, globally-merged schema properties hold for the grid
[(3, 3), (4, 2)] against the 100 cm horizon. -/
theorem claimC2_witness :
    (([⟨1, 1, 4, 2, 2⟩, ⟨2, 1, 3, 3, 1⟩] : List SchemaRow).map (·.ISUBLAY)
      = List.range' 1 ([⟨1, 1, 4, 2, 2⟩, ⟨2, 1, 3, 3, 1⟩] : List SchemaRow).length)
    ∧ List.Sorted keyLe (([⟨1, 1, 4, 2, 2⟩, ⟨2, 1, 3, 3, 1⟩] :
        List SchemaRow).map (fun r => (r.ISOILLAY, r.HCOMP)))
    ∧ (([⟨1, 1, 4, 2, 2⟩, ⟨2, 1, 3, 3, 1⟩] : List SchemaRow).map
        (fun r => (r.ISOILLAY, r.HCOMP))).Nodup
    ∧ (∀ k : Nat × Nat, k ∈ ([⟨1, 1, 4, 2, 2⟩, ⟨2, 1, 3, 3, 1⟩] :
          List SchemaRow).map (fun r => (r.ISOILLAY, r.HCOMP)) ↔
        k ∈ sublayers [100] [3, 4] [3, 2])
    ∧ (∀ row ∈ ([⟨1, 1, 4, 2, 2⟩, ⟨2, 1, 3, 3, 1⟩] : List SchemaRow),
        row.HSUBLAY
          = ((sublayers [100] [3, 4] [3, 2]).count (row.ISOILLAY, row.HCOMP))
              * row.HCOMP
        ∧ row.NCOMP * row.HCOMP = row.HSUBLAY) :=
  claimC2_theorem [100] [3, 4] [3, 2] [⟨1, 1, 4, 2, 2⟩, ⟨2, 1, 3, 3, 1⟩]
    (by decide) (by decide) schema_eval_c2

end DutchSoils
